import Mathlib

/-!
Shallow embedding of the AppStream lifecycle check core
(`plugins/module_utils/appstream_check_core.py`): date normalization,
rpm modularity-output parsing, OS-major detection and lifecycle
evaluation, together with theorems settling the specification claims.

Python strings are modelled as Lean `String`, Python `None`-able fields as
`Option`, raised exceptions as an `Except` error channel carrying a
structured error value (the error constructor holds exactly the data the
source interpolates into its exception message).
-/

namespace AppstreamCheck

/-- Characters removed by Python `str.strip()` (ASCII whitespace subset). -/
def isPySpace (c : Char) : Bool :=
  c == ' ' || c == '\t' || c == '\n' || c == '\r' || c == '\x0b' || c == '\x0c'

/-- Model of Python `str.strip()`: drop leading and trailing whitespace. -/
def pyStrip (s : String) : String :=
  ⟨((s.data.dropWhile isPySpace).reverse.dropWhile isPySpace).reverse⟩

/-- Model of Python `str.strip(c)` for a single character `c`: drop every
leading and trailing occurrence of `c`. -/
def pyStripChar (c : Char) (s : String) : String :=
  ⟨((s.data.dropWhile (· = c)).reverse.dropWhile (· = c)).reverse⟩

/-- Model of Python `str.split(sep)` (full split, one-character separator),
on character lists.  `split c [] = [[]]`, matching Python. -/
def splitChar (c : Char) : List Char → List (List Char)
  | [] => [[]]
  | x :: xs =>
    match splitChar c xs with
    | [] => [[]]
    | h :: t => if x = c then [] :: h :: t else (x :: h) :: t

/-- Model of Python `str.split(sep, 1)` restricted to the separating case:
`none` when the separator does not occur (Python returns a 1-element list
there), otherwise the parts before and after the first occurrence. -/
def splitOnce (c : Char) : List Char → Option (List Char × List Char)
  | [] => none
  | x :: xs =>
    if x = c then some ([], xs)
    else
      match splitOnce c xs with
      | none => none
      | some (a, b) => some (x :: a, b)

/-- Lines of a text, splitting on the newline character (the source uses
`str.splitlines`; every line is subsequently stripped, so the difference
on carriage returns and trailing newlines is absorbed by `pyStrip`). -/
def splitLines (s : String) : List String :=
  (splitChar '\n' s.data).map String.mk

/-- Numeric value of a list of decimal digit characters. -/
def digitsToNat (l : List Char) : Nat :=
  l.foldl (fun acc c => acc * 10 + (c.toNat - '0'.toNat)) 0

/-- Model of Python `str.isdigit()` (ASCII): non-empty and all digits. -/
def pyIsDigit (s : String) : Bool :=
  !s.data.isEmpty && s.data.all Char.isDigit

/-- Model of Python `int(s)`: optional surrounding whitespace, optional
sign, then a non-empty run of decimal digits. -/
def pyInt? (s : String) : Option Int :=
  match (pyStrip s).data with
  | [] => none
  | c :: rest =>
    if c = '+' then
      if rest ≠ [] ∧ rest.all Char.isDigit = true then some (digitsToNat rest) else none
    else if c = '-' then
      if rest ≠ [] ∧ rest.all Char.isDigit = true then some (-(digitsToNat rest : Int))
      else none
    else if (c :: rest).all Char.isDigit = true then some (digitsToNat (c :: rest))
    else none

/-- Calendar date, as Python `datetime.date` (validated components). -/
structure Date where
  year : Nat
  month : Nat
  day : Nat
deriving DecidableEq

/-- Gregorian leap-year rule used by `datetime.date`. -/
def isLeapYear (y : Nat) : Bool :=
  (y % 4 == 0 && y % 100 != 0) || y % 400 == 0

/-- Days in a month of a given year, as validated by `datetime.date`. -/
def daysInMonth (y m : Nat) : Nat :=
  if m == 2 then (if isLeapYear y then 29 else 28)
  else if m == 4 || m == 6 || m == 9 || m == 11 then 30
  else 31

/-- Validity check of `datetime.date(y, m, d)` (MINYEAR 1, MAXYEAR 9999). -/
def validDate (y m d : Nat) : Bool :=
  1 ≤ y && y ≤ 9999 && 1 ≤ m && m ≤ 12 && 1 ≤ d && d ≤ daysInMonth y m

/-- Model of the `datetime.date` constructor on (possibly negative)
integer arguments: `none` models the `ValueError` it raises. -/
def mkDate? (y m d : Int) : Option Date :=
  if 0 ≤ y ∧ 0 ≤ m ∧ 0 ≤ d then
    if validDate y.toNat m.toNat d.toNat then some ⟨y.toNat, m.toNat, d.toNat⟩ else none
  else none

/-- Strict comparison of `datetime.date` values (lexicographic on
year, month, day). -/
def Date.ltb (a b : Date) : Bool :=
  decide (a.year < b.year) ||
    (decide (a.year = b.year) &&
      (decide (a.month < b.month) ||
        (decide (a.month = b.month) && decide (a.day < b.day))))

/-- Model of `datetime.date.fromisoformat` as available on the Pythons the
source targets (the source keeps a manual fallback precisely because this
strict form requires zero-padded `YYYY-MM-DD`). -/
def fromisoformat? (s : String) : Option Date :=
  match s.data with
  | [y1, y2, y3, y4, s1, m1, m2, s2, d1, d2] =>
    if s1 = '-' ∧ s2 = '-' ∧ [y1, y2, y3, y4, m1, m2, d1, d2].all Char.isDigit = true then
      let y := digitsToNat [y1, y2, y3, y4]
      let m := digitsToNat [m1, m2]
      let d := digitsToNat [d1, d2]
      if validDate y m d then some ⟨y, m, d⟩ else none
    else none
  | _ => none

/-- Structured embedding of the exceptions the core raises; each
constructor carries the data the source interpolates into the message. -/
inductive CheckError where
  | invalidDate (value : String)
  | unknownTarget (key : String)
  | malformedLine (line : String)
  | invalidModularityLabel (package label : String)
  | detectionError (message : String)
deriving DecidableEq

/-- Argument of `parse_date`: Python `Union[str, date]`. -/
inductive DateInput where
  | str (s : String)
  | date (d : Date)
deriving DecidableEq

/-- Embedding of `parse_date`: strict ISO parse of the stripped text,
then the three-numeric-component fallback, else the `ValueError`
(`invalidDate` carrying the original value). -/
def parse_date : DateInput → Except CheckError Date
  | .date d => .ok d
  | .str v =>
    let text := pyStrip v
    match fromisoformat? text with
    | some d => .ok d
    | none =>
      match (splitChar '-' text.data).map String.mk with
      | [p0, p1, p2] =>
        match pyInt? p0, pyInt? p1, pyInt? p2 with
        | some y, some m, some d =>
          match mkDate? y m d with
          | some dt => .ok dt
          | none => .error (.invalidDate v)
        | _, _, _ => .error (.invalidDate v)
      | _ => .error (.invalidDate v)

/-- Result of classifying one non-blank rpm output line. -/
inductive LineResult where
  | nonmod (package : String)
  | modpkg (key package : String)
deriving DecidableEq

/-- Embedding of the label handling inside `parse_rpm_modularity_output`:
the literal `(none)` marks a non-modular package; otherwise the label is
split on `:`, needs at least two components with the first two non-empty,
and the modular stream key is the first two components joined by `:`. -/
def parseLabel (package label : String) : Except CheckError LineResult :=
  if label = "(none)" then .ok (.nonmod package)
  else
    match (splitChar ':' label.data).map String.mk with
    | a :: b :: _ =>
      if a = "" ∨ b = "" then .error (.invalidModularityLabel package label)
      else .ok (.modpkg (a ++ ":" ++ b) package)
    | _ => .error (.invalidModularityLabel package label)

/-- Embedding of the per-line step of `parse_rpm_modularity_output`:
strip the line, skip it when blank (`ok none`), split on the first space
(one split, two fields required), then classify the label. -/
def classifyLine (raw : String) : Except CheckError (Option LineResult) :=
  let line := pyStrip raw
  if line = "" then .ok none
  else
    match splitOnce ' ' line.data with
    | none => .error (.malformedLine line)
    | some (p, rest) =>
      (parseLabel (pyStrip ⟨p⟩) (pyStrip ⟨rest⟩)).map some

/-- Accumulator of `parse_rpm_modularity_output`: the `modules_raw`
insertion-ordered mapping and the `installed_packages` list. -/
structure ParseState where
  modules : List (String × List String)
  packages : List String
deriving DecidableEq

/-- Model of `modules_raw.setdefault(key, []).append(pkg)` on an
insertion-ordered association list. -/
def appendAt (m : List (String × List String)) (key pkg : String) :
    List (String × List String) :=
  match m with
  | [] => [(key, [pkg])]
  | (k, ps) :: rest =>
    if k = key then (k, ps ++ [pkg]) :: rest else (k, ps) :: appendAt rest key pkg

/-- Process one raw line of rpm output into the accumulator. -/
def stepLine (st : ParseState) (raw : String) : Except CheckError ParseState :=
  match classifyLine raw with
  | .error e => .error e
  | .ok none => .ok st
  | .ok (some (.nonmod p)) => .ok ⟨st.modules, st.packages ++ [p]⟩
  | .ok (some (.modpkg k p)) => .ok ⟨appendAt st.modules k p, st.packages⟩

/-- Fold the per-line step over the lines, stopping at the first error. -/
def runLines (st : ParseState) : List String → Except CheckError ParseState
  | [] => .ok st
  | l :: ls =>
    match stepLine st l with
    | .error e => .error e
    | .ok st2 => runLines st2 ls

/-- Strict lexicographic comparison of character lists by code point,
the order Python `sorted` uses on strings. -/
def charListLt : List Char → List Char → Bool
  | _, [] => false
  | [], _ :: _ => true
  | a :: as, b :: bs => decide (a < b) || (decide (a = b) && charListLt as bs)

/-- Strict lexicographic comparison of strings by code point. -/
def strLt (a b : String) : Bool := charListLt a.data b.data

/-- Sorted-deduplicating insertion (model of building `sorted(set(l))`). -/
def insertUnique (x : String) : List String → List String
  | [] => [x]
  | y :: ys =>
    if strLt x y then x :: y :: ys
    else if x = y then y :: ys
    else y :: insertUnique x ys

/-- Model of Python `sorted(set(l))` on string lists. -/
def sortedSet (l : List String) : List String := l.foldr insertUnique []

/-- Embedding of `parse_rpm_modularity_output`: run the lines, then return
the module mapping and the sorted deduplicated non-modular package list. -/
def parse_rpm_modularity_output (output : String) :
    Except CheckError (List (String × List String) × List String) :=
  match runLines ⟨[], []⟩ (splitLines output) with
  | .error e => .error e
  | .ok st => .ok (st.modules, sortedSet st.packages)

/-- Single-quote character, written by code point to keep source plain. -/
def squote : Char := Char.ofNat 39

/-- Unquoting applied to the `VERSION_ID` value: `strip()` then
`strip(dquote)` then `strip(squote)`, as in the source. -/
def stripQuotes (s : String) : String :=
  pyStripChar squote (pyStripChar '"' (pyStrip s))

/-- Boolean string head test used to model `str.startswith`. -/
def startsWithStr (p s : String) : Bool :=
  decide (s.data.take p.data.length = p.data)

/-- Scan of the os-release lines: first stripped line starting with
`VERSION_ID=` wins; the value is everything after the first `=`
(11 characters in), unquoted. -/
def findVersionId : List String → Option String
  | [] => none
  | l :: ls =>
    let t := pyStrip l
    if startsWithStr "VERSION_ID=" t then some (stripQuotes ⟨t.data.drop 11⟩)
    else findVersionId ls

/-- Message of the `ValueError` raised when no version id is found; a
missing or unreadable file and a file without the line share it. -/
def msgNoVersionId : String :=
  "Unable to detect VERSION_ID from /etc/os-release; pass target_major explicitly."

/-- Message of the `ValueError` raised when the major substring is not
numeric (the source interpolates the repr of the value). -/
def msgBadMajor (v : String) : String :=
  "Unable to parse major version from VERSION_ID=" ++
    String.mk (squote :: v.data ++ [squote]) ++ "; pass target_major explicitly."

/-- Substring before the first `.` (`split(".", 1)[0]`). -/
def beforeFirstDot (s : String) : String :=
  match splitOnce '.' s.data with
  | none => s
  | some (a, _) => ⟨a⟩

/-- Embedding of `detect_target_major`.  The host file is modelled as
`Option (List String)`: `none` is a missing or unreadable file (the source
swallows `OSError` and missing paths identically), `some lines` its lines. -/
def detect_target_major (file : Option (List String)) : Except CheckError String :=
  let version_id :=
    match file with
    | none => none
    | some lines => findVersionId lines
  match version_id with
  | none => .error (.detectionError msgNoVersionId)
  | some v =>
    if v = "" then .error (.detectionError msgNoVersionId)
    else
      let major := beforeFirstDot v
      if pyIsDigit major then .ok ("el" ++ toString (digitsToNat major.data))
      else .error (.detectionError (msgBadMajor v))

/-- Reference `package` entry: `name` and `end_date` may be absent/null. -/
structure PackageEntry where
  name : Option String
  end_date : Option DateInput
deriving DecidableEq

/-- Reference `dnf_module` entry. -/
structure ModuleEntry where
  name : Option String
  stream : Option String
  end_date : Option DateInput
deriving DecidableEq

/-- Reference-table record of one OS major key. -/
structure MajorData where
  package : List PackageEntry
  dnf_module : List ModuleEntry
deriving DecidableEq

/-- First-match lookup in an association list (Python `dict.get`). -/
def alistGet? {α : Type} (m : List (String × α)) (k : String) : Option α :=
  match m with
  | [] => none
  | (k2, v) :: rest => if k2 = k then some v else alistGet? rest k

/-- Python `dict.get(k, [])` on the module inventory. -/
def alistGetD (m : List (String × List String)) (k : String) : List String :=
  (alistGet? m k).getD []

/-- Truthiness of an optional string (Python `bool` of a `None`-able
string): false exactly for `None` and the empty string. -/
def truthyStr : Option String → Bool
  | none => false
  | some s => !decide (s = "")

/-- Python `str(x)` of a `None`-able string (`None` renders as "None"). -/
def pyStrOpt : Option String → String
  | none => "None"
  | some s => s

/-- Embedding of `_is_retired`: `None` and the empty string are never
retired; an unparseable end date is swallowed (`False`); otherwise the
parsed end date must be strictly before the cutoff. -/
def _is_retired (end_date_raw : Option DateInput) (cutoff : Date) : Bool :=
  match end_date_raw with
  | none => false
  | some (.str s) =>
    if s = "" then false
    else
      match parse_date (.str s) with
      | .ok d => d.ltb cutoff
      | .error _ => false
  | some (.date d) => d.ltb cutoff

/-- Retired-package reference set: sorted set of names of retired
`package` entries with a truthy name. -/
def referencePackageNames (md : MajorData) (cutoff : Date) : List String :=
  sortedSet ((md.package.filter
      (fun it => _is_retired it.end_date cutoff && truthyStr it.name)).map
    (fun it => pyStrOpt it.name))

/-- Retired-module reference set: sorted set of `name:stream` keys of
retired `dnf_module` entries with truthy name and stream. -/
def referenceModuleNames (md : MajorData) (cutoff : Date) : List String :=
  sortedSet ((md.dnf_module.filter
      (fun it => _is_retired it.end_date cutoff && truthyStr it.name &&
        truthyStr it.stream)).map
    (fun it => pyStrOpt it.name ++ ":" ++ pyStrOpt it.stream))

/-- The `appstream_check_result` payload. -/
structure EvalResult where
  target_major : String
  matched_packages : List String
  matched_dnf_modules : List String
  matched_dnf_modules_packages : List String
  any_match : Bool
deriving DecidableEq

/-- The intersection of the installed non-modular packages with the
retired-package reference set, sorted. -/
def matchedPackages (md : MajorData) (cutoff : Date) (installed_packages : List String) :
    List String :=
  sortedSet (installed_packages.filter
    (fun p => decide (p ∈ referencePackageNames md cutoff)))

/-- The intersection of installed module keys with the retired-module
reference set, sorted. -/
def matchedModules (md : MajorData) (cutoff : Date)
    (installed_dnf_modules_raw : List (String × List String)) : List String :=
  sortedSet ((installed_dnf_modules_raw.map Prod.fst).filter
    (fun k => decide (k ∈ referenceModuleNames md cutoff)))

/-- Packages of the matched module streams, deduplicated and sorted. -/
def matchedModulePackages (installed_dnf_modules_raw : List (String × List String))
    (matched : List String) : List String :=
  sortedSet (matched.flatMap (fun m => alistGetD installed_dnf_modules_raw m))

/-- Success branch of `evaluate_appstream_check` (cutoff parsed, target
key found): builds the result payload and the removal list. -/
def evalCore (target_major : String) (md : MajorData) (cutoff : Date)
    (installed_dnf_modules_raw : List (String × List String))
    (installed_packages : List String) : EvalResult × List String :=
  let retired_installed_packages := matchedPackages md cutoff installed_packages
  let installed_dnf_modules := matchedModules md cutoff installed_dnf_modules_raw
  let mmp := matchedModulePackages installed_dnf_modules_raw installed_dnf_modules
  ({ target_major := target_major,
     matched_packages := retired_installed_packages,
     matched_dnf_modules := installed_dnf_modules,
     matched_dnf_modules_packages := mmp,
     any_match := !(retired_installed_packages.isEmpty && installed_dnf_modules.isEmpty) },
   sortedSet (retired_installed_packages ++ mmp))

/-- Embedding of `evaluate_appstream_check`.  As in the source, the cutoff
date is normalized first; only then is the target key looked up (a missing
key raises `KeyError(target_major)`, modelled as `unknownTarget`). -/
def evaluate_appstream_check (grouped_data : List (String × MajorData))
    (target_major : String) (selected_date : DateInput)
    (installed_dnf_modules_raw : List (String × List String))
    (installed_packages : List String) : Except CheckError (EvalResult × List String) :=
  match parse_date selected_date with
  | .error e => .error e
  | .ok cutoff =>
    match alistGet? grouped_data target_major with
    | none => .error (.unknownTarget target_major)
    | some major_data =>
      .ok (evalCore target_major major_data cutoff installed_dnf_modules_raw
        installed_packages)

/-- Scenario A and B reference record of the key `el9`. -/
def mdA : MajorData :=
  { package := [{ name := some "retired-nonmod", end_date := some (.str "2020-01-01") }],
    dnf_module := [{ name := some "nodejs", stream := some "18",
                     end_date := some (.str "2020-01-01") }] }

/-- Scenario A and B reference table. -/
def gdA : List (String × MajorData) := [("el9", mdA)]

/-- Scenario A and B installed module inventory. -/
def invA : List (String × List String) := [("nodejs:18", ["nodejs-libs"])]

/-- Scenario A and B installed non-modular packages. -/
def pkgsA : List String := ["retired-nonmod"]

/-! ## Order lemmas for the string comparison -/

/-- Strings with equal character data are equal. -/
lemma string_eq_of_data {a b : String} (h : a.data = b.data) : a = b := by
  cases a; cases b; cases h; rfl

lemma charListLt_irrefl : ∀ l, charListLt l l = false
  | [] => rfl
  | a :: as => by simp [charListLt, charListLt_irrefl as]

lemma charListLt_trans (a : List Char) : ∀ b c, charListLt a b = true →
    charListLt b c = true → charListLt a c = true := by
  induction a with
  | nil =>
    intro b c h1 h2
    cases c with
    | nil => simp [charListLt] at h2
    | cons c0 cs => simp [charListLt]
  | cons a0 as ih =>
    intro b c h1 h2
    cases b with
    | nil => simp [charListLt] at h1
    | cons b0 bs =>
      cases c with
      | nil => simp [charListLt] at h2
      | cons c0 cs =>
        simp only [charListLt, Bool.or_eq_true, Bool.and_eq_true,
          decide_eq_true_eq] at h1 h2 ⊢
        rcases h1 with h1 | ⟨rfl, h1⟩
        · rcases h2 with h2 | ⟨rfl, h2⟩
          · exact Or.inl (lt_trans h1 h2)
          · exact Or.inl h1
        · rcases h2 with h2 | ⟨rfl, h2⟩
          · exact Or.inl h2
          · exact Or.inr ⟨rfl, ih bs cs h1 h2⟩

lemma charListLt_tri (a : List Char) : ∀ b, a = b ∨ charListLt a b = true ∨
    charListLt b a = true := by
  induction a with
  | nil =>
    intro b
    cases b with
    | nil => exact Or.inl rfl
    | cons b0 bs => exact Or.inr (Or.inl (by simp [charListLt]))
  | cons a0 as ih =>
    intro b
    cases b with
    | nil => exact Or.inr (Or.inr (by simp [charListLt]))
    | cons b0 bs =>
      rcases lt_trichotomy a0 b0 with h | h | h
      · exact Or.inr (Or.inl (by simp [charListLt, h]))
      · subst h
        rcases ih bs with h2 | h2 | h2
        · exact Or.inl (by rw [h2])
        · exact Or.inr (Or.inl (by simp [charListLt, h2]))
        · exact Or.inr (Or.inr (by simp [charListLt, h2]))
      · exact Or.inr (Or.inr (by simp [charListLt, h]))

lemma strLt_irrefl (a : String) : strLt a a = false := charListLt_irrefl a.data

lemma strLt_trans {a b c : String} (h1 : strLt a b = true) (h2 : strLt b c = true) :
    strLt a c = true := charListLt_trans a.data b.data c.data h1 h2

lemma strLt_tri (a b : String) : a = b ∨ strLt a b = true ∨ strLt b a = true := by
  rcases charListLt_tri a.data b.data with h | h | h
  · exact Or.inl (string_eq_of_data h)
  · exact Or.inr (Or.inl h)
  · exact Or.inr (Or.inr h)

/-- The strict sorting relation of the returned lists. -/
def sLt (a b : String) : Prop := strLt a b = true

lemma sLt_ne {a b : String} (h : sLt a b) : a ≠ b := by
  intro he
  subst he
  rw [sLt, strLt_irrefl] at h
  exact Bool.false_ne_true h

/-! ## Lemmas about `insertUnique` and `sortedSet` -/

lemma mem_insertUnique (x a : String) (l : List String) :
    a ∈ insertUnique x l ↔ a = x ∨ a ∈ l := by
  induction l with
  | nil => simp [insertUnique]
  | cons y ys ih =>
    simp only [insertUnique]
    split_ifs with h1 h2
    · simp only [List.mem_cons]
    · subst h2
      simp only [List.mem_cons]
      tauto
    · simp only [List.mem_cons, ih]
      tauto

lemma sorted_insertUnique (x : String) (l : List String) (h : List.Sorted sLt l) :
    List.Sorted sLt (insertUnique x l) := by
  induction l with
  | nil => simp [insertUnique, List.Sorted]
  | cons y ys ih =>
    rw [List.sorted_cons] at h
    obtain ⟨hy, hys⟩ := h
    simp only [insertUnique]
    split_ifs with h1 h2
    · refine List.sorted_cons.mpr ⟨?_, List.sorted_cons.mpr ⟨hy, hys⟩⟩
      intro b hb
      rcases List.mem_cons.mp hb with rfl | hb
      · exact h1
      · exact strLt_trans h1 (hy b hb)
    · subst h2
      exact List.sorted_cons.mpr ⟨hy, hys⟩
    · have hyx : strLt y x = true := by
        rcases strLt_tri x y with h3 | h3 | h3
        · exact absurd h3 h2
        · exact absurd h3 h1
        · exact h3
      refine List.sorted_cons.mpr ⟨?_, ih hys⟩
      intro b hb
      rcases (mem_insertUnique x b ys).mp hb with rfl | hb
      · exact hyx
      · exact hy b hb

lemma sorted_sortedSet (l : List String) : List.Sorted sLt (sortedSet l) := by
  induction l with
  | nil => simp [sortedSet, List.Sorted]
  | cons x xs ih => exact sorted_insertUnique x (sortedSet xs) ih

lemma mem_sortedSet {a : String} {l : List String} : a ∈ sortedSet l ↔ a ∈ l := by
  induction l with
  | nil => simp [sortedSet]
  | cons x xs ih =>
    show a ∈ insertUnique x (sortedSet xs) ↔ _
    rw [mem_insertUnique, ih, List.mem_cons]

lemma nodup_sortedSet (l : List String) : (sortedSet l).Nodup :=
  List.Pairwise.imp (fun h => sLt_ne h) (sorted_sortedSet l)

lemma sortedSet_eq_nil_iff (l : List String) : sortedSet l = [] ↔ l = [] := by
  constructor
  · intro h
    cases l with
    | nil => rfl
    | cons x xs =>
      have hx : x ∈ sortedSet (x :: xs) := mem_sortedSet.mpr (List.mem_cons_self x xs)
      rw [h] at hx
      exact absurd hx (List.not_mem_nil x)
  · intro h
    rw [h]
    rfl

/-! ## Helper definitions used by the claim statements -/

/-- The package a line contributes to a given modular stream key. -/
def lineModPkg (key raw : String) : Option String :=
  match classifyLine raw with
  | .ok (some (.modpkg k p)) => if k = key then some p else none
  | _ => none

/-- All packages the lines contribute to a key, in line order, with
duplicates kept. -/
def keyPkgs (lines : List String) (key : String) : List String :=
  lines.filterMap (lineModPkg key)

/-- The non-modular package a line contributes, if any. -/
def lineNonmod (raw : String) : Option String :=
  match classifyLine raw with
  | .ok (some (.nonmod p)) => some p
  | _ => none

/-- All non-modular packages of the lines, in line order. -/
def nonmodPkgs (lines : List String) : List String :=
  lines.filterMap lineNonmod

/-- A modularity label the parser rejects: fewer than two colon-delimited
components, or an empty first or second component. -/
def labelBad (label : String) : Bool :=
  match (splitChar ':' label.data).map String.mk with
  | a :: b :: _ => decide (a = "" ∨ b = "")
  | _ => true

/-- An end date the retirement check must ignore: null, the empty string,
or a string the date normalizer cannot parse. -/
def badEndDate (e : Option DateInput) : Prop :=
  e = none ∨ e = some (.str "") ∨
    ∃ s, e = some (.str s) ∧ ∃ err, parse_date (.str s) = .error err

/-- A reference-entry name excluded from matching: missing or empty. -/
def badName (n : Option String) : Prop := n = none ∨ n = some ""

/-- Join character lists with a separator (inverse of `splitChar`). -/
def joinParts (c : Char) : List (List Char) → List Char
  | [] => []
  | [p] => p
  | p :: ps => p ++ c :: joinParts c ps

/-! ## Small list and string lemmas -/

@[simp] lemma mk_data (s : String) : String.mk s.data = s := rfl

lemma alistGetD_cons (a : String) (v : List String) (r : List (String × List String))
    (k : String) : alistGetD ((a, v) :: r) k = if a = k then v else alistGetD r k := by
  by_cases h : a = k <;> simp [alistGetD, alistGet?, h]

lemma alistGetD_appendAt (m : List (String × List String)) (k k2 p : String) :
    alistGetD (appendAt m k p) k2 =
      if k2 = k then alistGetD m k2 ++ [p] else alistGetD m k2 := by
  induction m with
  | nil =>
    by_cases h : k2 = k
    · subst h
      simp [appendAt, alistGetD_cons, alistGetD, alistGet?]
    · have h2 : ¬(k = k2) := fun he => h he.symm
      simp [appendAt, alistGetD_cons, alistGetD, alistGet?, h, h2]
  | cons kv rest ih =>
    obtain ⟨k0, v0⟩ := kv
    by_cases hk0 : k0 = k
    · subst hk0
      simp only [appendAt, if_pos rfl]
      by_cases h2 : k0 = k2
      · subst h2
        simp [alistGetD_cons]
      · have h3 : ¬(k2 = k0) := fun he => h2 he.symm
        simp [alistGetD_cons, h2, h3]
    · simp only [appendAt, if_neg hk0]
      by_cases h2 : k0 = k2
      · subst h2
        have h3 : ¬(k0 = k) := hk0
        simp [alistGetD_cons, fun he => h3 (he : k0 = k)]
      · simp [alistGetD_cons, h2, ih]

lemma splitChar_ne_nil (c : Char) (l : List Char) : splitChar c l ≠ [] := by
  cases l with
  | nil => simp [splitChar]
  | cons x xs =>
    cases hs : splitChar c xs with
    | nil => simp [splitChar, hs]
    | cons h t =>
      simp only [splitChar, hs]
      split <;> simp

lemma splitChar_not_mem {c : Char} : ∀ l : List Char, c ∉ l → splitChar c l = [l] := by
  intro l
  induction l with
  | nil => intro _; rfl
  | cons x xs ih =>
    intro h
    have hx : ¬(x = c) := fun he => h (he ▸ List.mem_cons_self x xs)
    have hxs : c ∉ xs := fun hm => h (List.mem_cons_of_mem x hm)
    simp [splitChar, ih hxs, hx]

lemma splitChar_append_cons (c : Char) (p rest : List Char) (hp : c ∉ p) :
    splitChar c (p ++ c :: rest) = p :: splitChar c rest := by
  induction p with
  | nil =>
    cases hs : splitChar c rest with
    | nil => exact absurd hs (splitChar_ne_nil c rest)
    | cons h t => simp [splitChar, hs]
  | cons x p2 ih =>
    have hx : ¬(x = c) := fun he => hp (he ▸ List.mem_cons_self x p2)
    have hp2 : c ∉ p2 := fun hm => hp (List.mem_cons_of_mem x hm)
    have ihr := ih hp2
    show splitChar c (x :: (p2 ++ c :: rest)) = (x :: p2) :: splitChar c rest
    rw [splitChar, ihr]
    simp [hx]

lemma dropWhile_all_false {p : Char → Bool} : ∀ l : List Char,
    (∀ c ∈ l, p c = false) → List.dropWhile p l = l := by
  intro l
  cases l with
  | nil => intro _; rfl
  | cons x xs =>
    intro h
    simp [List.dropWhile, h x (List.mem_cons_self x xs)]

lemma pyStrip_no_space {s : String} (h : ∀ c ∈ s.data, isPySpace c = false) :
    pyStrip s = s := by
  unfold pyStrip
  rw [dropWhile_all_false s.data h]
  rw [dropWhile_all_false s.data.reverse (fun c hc => h c (List.mem_reverse.mp hc))]
  rw [List.reverse_reverse]

lemma digit_ne_dash {c : Char} (h : c.isDigit = true) : c ≠ '-' := by
  intro he
  subst he
  exact absurd h (by decide)

lemma digit_not_pyspace {c : Char} (h : c.isDigit = true) : isPySpace c = false := by
  cases hb : isPySpace c with
  | false => rfl
  | true =>
    simp only [isPySpace, Bool.or_eq_true, beq_iff_eq] at hb
    rcases hb with ((((h1 | h1) | h1) | h1) | h1) | h1 <;>
      (subst h1; exact absurd h (by decide))

/-! ## Parser fold invariants -/

lemma stepLine_error_iff (st : ParseState) (raw : String) (e : CheckError) :
    stepLine st raw = .error e ↔ classifyLine raw = .error e := by
  cases hc : classifyLine raw with
  | error e2 => simp [stepLine, hc]
  | ok r =>
    rcases r with _ | r
    · simp [stepLine, hc]
    · rcases r with p | ⟨k, p⟩ <;> simp [stepLine, hc]

lemma stepLine_ok_cases (st st2 : ParseState) (raw : String)
    (h : stepLine st raw = .ok st2) :
    (classifyLine raw = .ok none ∧ st2 = st) ∨
    (∃ p, classifyLine raw = .ok (some (.nonmod p)) ∧
      st2 = ⟨st.modules, st.packages ++ [p]⟩) ∨
    (∃ k p, classifyLine raw = .ok (some (.modpkg k p)) ∧
      st2 = ⟨appendAt st.modules k p, st.packages⟩) := by
  cases hc : classifyLine raw with
  | error e2 => simp [stepLine, hc] at h
  | ok r =>
    rcases r with _ | r
    · simp only [stepLine, hc] at h
      exact Or.inl ⟨rfl, (Except.ok.inj h).symm⟩
    · rcases r with p | ⟨k, p⟩
      · simp only [stepLine, hc] at h
        exact Or.inr (Or.inl ⟨p, rfl, (Except.ok.inj h).symm⟩)
      · simp only [stepLine, hc] at h
        exact Or.inr (Or.inr ⟨k, p, rfl, (Except.ok.inj h).symm⟩)

lemma runLines_packages (lines : List String) : ∀ st st2,
    runLines st lines = .ok st2 → st2.packages = st.packages ++ nonmodPkgs lines := by
  induction lines with
  | nil =>
    intro st st2 h
    rw [(Except.ok.inj h).symm]
    simp [nonmodPkgs]
  | cons l ls ih =>
    intro st st2 h
    rw [runLines] at h
    cases hs : stepLine st l with
    | error e => rw [hs] at h; exact absurd h (by simp)
    | ok st1 =>
      rw [hs] at h
      rcases stepLine_ok_cases st st1 l hs with ⟨hc, rfl⟩ | ⟨p, hc, rfl⟩ | ⟨k, p, hc, rfl⟩
      · rw [ih _ st2 h]
        simp [nonmodPkgs, lineNonmod, hc]
      · rw [ih _ st2 h]
        simp [nonmodPkgs, lineNonmod, hc]
      · rw [ih _ st2 h]
        simp [nonmodPkgs, lineNonmod, hc]

lemma runLines_modules (lines : List String) : ∀ st st2,
    runLines st lines = .ok st2 → ∀ key,
      alistGetD st2.modules key = alistGetD st.modules key ++ keyPkgs lines key := by
  induction lines with
  | nil =>
    intro st st2 h key
    rw [(Except.ok.inj h).symm]
    simp [keyPkgs]
  | cons l ls ih =>
    intro st st2 h key
    rw [runLines] at h
    cases hs : stepLine st l with
    | error e => rw [hs] at h; exact absurd h (by simp)
    | ok st1 =>
      rw [hs] at h
      rcases stepLine_ok_cases st st1 l hs with ⟨hc, rfl⟩ | ⟨p, hc, rfl⟩ | ⟨k, p, hc, rfl⟩
      · rw [ih _ st2 h key]
        simp [keyPkgs, lineModPkg, hc]
      · rw [ih _ st2 h key]
        simp [keyPkgs, lineModPkg, hc]
      · rw [ih _ st2 h key]
        simp only [keyPkgs, lineModPkg, hc, List.filterMap_cons]
        by_cases hk : k = key
        · subst hk
          simp [alistGetD_appendAt]
        · have hk2 : ¬(key = k) := fun he => hk he.symm
          simp [alistGetD_appendAt, hk, hk2]

lemma appendAt_values_ne_nil (m : List (String × List String)) (k p : String)
    (hv : ∀ kv ∈ m, kv.2 ≠ []) : ∀ kv ∈ appendAt m k p, kv.2 ≠ [] := by
  induction m with
  | nil =>
    intro kv hkv
    simp only [appendAt] at hkv
    rcases List.mem_singleton.mp hkv with rfl
    simp
  | cons kv0 rest ih =>
    obtain ⟨k0, v0⟩ := kv0
    intro kv hkv
    simp only [appendAt] at hkv
    split_ifs at hkv with hk
    · rcases List.mem_cons.mp hkv with rfl | hkv
      · simp
      · exact hv kv (List.mem_cons_of_mem _ hkv)
    · rcases List.mem_cons.mp hkv with rfl | hkv
      · exact hv (k0, v0) (List.mem_cons_self _ _)
      · exact ih (fun kv2 h2 => hv kv2 (List.mem_cons_of_mem _ h2)) kv hkv

lemma runLines_values_ne_nil (lines : List String) : ∀ st st2,
    (∀ kv ∈ st.modules, kv.2 ≠ []) → runLines st lines = .ok st2 →
      ∀ kv ∈ st2.modules, kv.2 ≠ [] := by
  induction lines with
  | nil =>
    intro st st2 hv h
    rw [(Except.ok.inj h).symm]
    exact hv
  | cons l ls ih =>
    intro st st2 hv h
    rw [runLines] at h
    cases hs : stepLine st l with
    | error e => rw [hs] at h; exact absurd h (by simp)
    | ok st1 =>
      rw [hs] at h
      rcases stepLine_ok_cases st st1 l hs with ⟨hc, rfl⟩ | ⟨p, hc, rfl⟩ | ⟨k, p, hc, rfl⟩
      · exact ih _ st2 hv h
      · exact ih ⟨st.modules, st.packages ++ [p]⟩ st2 hv h
      · exact ih ⟨appendAt st.modules k p, st.packages⟩ st2
          (appendAt_values_ne_nil st.modules k p hv) h

lemma runLines_error_iff (lines : List String) : ∀ st,
    (∃ e, runLines st lines = .error e) ↔
      ∃ l ∈ lines, ∃ e, classifyLine l = .error e := by
  induction lines with
  | nil =>
    intro st
    simp [runLines]
  | cons l ls ih =>
    intro st
    rw [runLines]
    cases hs : stepLine st l with
    | error e =>
      simp only [List.mem_cons]
      constructor
      · intro _
        exact ⟨l, Or.inl rfl, e, (stepLine_error_iff st l e).mp hs⟩
      · intro _
        exact ⟨e, rfl⟩
    | ok st1 =>
      rw [ih st1]
      constructor
      · intro ⟨l2, hl2, e2, he2⟩
        exact ⟨l2, List.mem_cons_of_mem l hl2, e2, he2⟩
      · intro ⟨l2, hl2, e2, he2⟩
        rcases List.mem_cons.mp hl2 with rfl | hl2
        · have := (stepLine_error_iff st l2 e2).mpr he2
          rw [this] at hs
          exact absurd hs (by simp)
        · exact ⟨l2, hl2, e2, he2⟩

lemma alistGetD_ne_nil_of_mem_keys (m : List (String × List String)) (k : String)
    (hv : ∀ kv ∈ m, kv.2 ≠ []) (hk : k ∈ m.map Prod.fst) : alistGetD m k ≠ [] := by
  induction m with
  | nil => simp at hk
  | cons kv0 rest ih =>
    obtain ⟨k0, v0⟩ := kv0
    rw [alistGetD_cons]
    split_ifs with h
    · exact hv (k0, v0) (List.mem_cons_self _ _)
    · rcases List.mem_cons.mp hk with rfl | hk2
      · exact absurd rfl h
      · exact ih (fun kv2 h2 => hv kv2 (List.mem_cons_of_mem _ h2)) hk2

lemma parse_ok_inv (output : String) (mods : List (String × List String))
    (pkgs : List String)
    (h : parse_rpm_modularity_output output = .ok (mods, pkgs)) :
    ∃ st, runLines ⟨[], []⟩ (splitLines output) = .ok st ∧
      mods = st.modules ∧ pkgs = sortedSet st.packages := by
  unfold parse_rpm_modularity_output at h
  cases hr : runLines ⟨[], []⟩ (splitLines output) with
  | error e => rw [hr] at h; exact absurd h (by simp)
  | ok st =>
    rw [hr] at h
    have h2 := Except.ok.inj h
    exact ⟨st, rfl, (congrArg Prod.fst h2).symm, (congrArg Prod.snd h2).symm⟩

/-! ## Date normalization lemmas -/

lemma fromisoformat_some_inv {s : String} {dt : Date} (h : fromisoformat? s = some dt) :
    ∃ y1 y2 y3 y4 m1 m2 d1 d2,
      s.data = [y1, y2, y3, y4, '-', m1, m2, '-', d1, d2] ∧
      [y1, y2, y3, y4, m1, m2, d1, d2].all Char.isDigit = true ∧
      dt = ⟨digitsToNat [y1, y2, y3, y4], digitsToNat [m1, m2], digitsToNat [d1, d2]⟩ := by
  unfold fromisoformat? at h
  split at h
  next y1 y2 y3 y4 s1 m1 m2 s2 d1 d2 heq =>
    split at h
    next hcond =>
      obtain ⟨h1, h2, h3⟩ := hcond
      subst h1
      subst h2
      cases hval : validDate (digitsToNat [y1, y2, y3, y4]) (digitsToNat [m1, m2])
          (digitsToNat [d1, d2]) with
      | false => simp [hval] at h
      | true =>
        simp only [hval, if_true] at h
        refine ⟨y1, y2, y3, y4, m1, m2, d1, d2, heq, h3, ?_⟩
        exact (Option.some.inj h).symm
    next => exact absurd h (by simp)
  next => exact absurd h (by simp)

lemma splitChar_iso {y1 y2 y3 y4 m1 m2 d1 d2 : Char}
    (hd : [y1, y2, y3, y4, m1, m2, d1, d2].all Char.isDigit = true) :
    splitChar '-' [y1, y2, y3, y4, '-', m1, m2, '-', d1, d2] =
      [[y1, y2, y3, y4], [m1, m2], [d1, d2]] := by
  simp only [List.all_cons, List.all_nil, Bool.and_eq_true, Bool.and_true] at hd
  obtain ⟨h1, h2, h3, h4, h5, h6, h7, h8⟩ := hd
  have hy : ('-' : Char) ∉ [y1, y2, y3, y4] := by
    intro hm
    rcases List.mem_cons.mp hm with he | hm
    · exact digit_ne_dash h1 he.symm
    rcases List.mem_cons.mp hm with he | hm
    · exact digit_ne_dash h2 he.symm
    rcases List.mem_cons.mp hm with he | hm
    · exact digit_ne_dash h3 he.symm
    rcases List.mem_cons.mp hm with he | hm
    · exact digit_ne_dash h4 he.symm
    exact absurd hm (List.not_mem_nil _)
  have hm2 : ('-' : Char) ∉ [m1, m2] := by
    intro hm
    rcases List.mem_cons.mp hm with he | hm
    · exact digit_ne_dash h5 he.symm
    rcases List.mem_cons.mp hm with he | hm
    · exact digit_ne_dash h6 he.symm
    exact absurd hm (List.not_mem_nil _)
  have hd2 : ('-' : Char) ∉ [d1, d2] := by
    intro hm
    rcases List.mem_cons.mp hm with he | hm
    · exact digit_ne_dash h7 he.symm
    rcases List.mem_cons.mp hm with he | hm
    · exact digit_ne_dash h8 he.symm
    exact absurd hm (List.not_mem_nil _)
  show splitChar '-' ([y1, y2, y3, y4] ++ '-' :: ([m1, m2] ++ '-' :: [d1, d2])) = _
  rw [splitChar_append_cons '-' _ _ hy, splitChar_append_cons '-' _ _ hm2,
    splitChar_not_mem _ hd2]

lemma pyInt?_digits {l : List Char} (hne : l ≠ []) (hd : l.all Char.isDigit = true) :
    pyInt? ⟨l⟩ = some (Int.ofNat (digitsToNat l)) := by
  have hstrip : pyStrip ⟨l⟩ = ⟨l⟩ := by
    apply pyStrip_no_space
    intro c hc
    exact digit_not_pyspace (List.all_eq_true.mp hd c hc)
  unfold pyInt?
  rw [hstrip]
  cases l with
  | nil => exact absurd rfl hne
  | cons c rest =>
    have hc : c.isDigit = true := List.all_eq_true.mp hd c (List.mem_cons_self _ _)
    have hplus : ¬(c = '+') := by
      intro he
      subst he
      exact absurd hc (by decide)
    have hminus : ¬(c = '-') := digit_ne_dash hc
    simp [hplus, hminus, hd]

lemma mkDate?_natCast {y m d : Nat} (hval : validDate y m d = true) :
    mkDate? (Int.ofNat y) (Int.ofNat m) (Int.ofNat d) = some ⟨y, m, d⟩ := by
  unfold mkDate?
  rw [if_pos ⟨Int.natCast_nonneg y, Int.natCast_nonneg m, Int.natCast_nonneg d⟩]
  exact if_pos hval

lemma parse_date_components {v : String} {ly lm ld : List Char}
    (hsplit : splitChar '-' (pyStrip v).data = [ly, lm, ld])
    (hly : ly ≠ []) (hlm : lm ≠ []) (hld : ld ≠ [])
    (hdy : ly.all Char.isDigit = true) (hdm : lm.all Char.isDigit = true)
    (hdd : ld.all Char.isDigit = true)
    (hval : validDate (digitsToNat ly) (digitsToNat lm) (digitsToNat ld) = true) :
    parse_date (.str v) = .ok ⟨digitsToNat ly, digitsToNat lm, digitsToNat ld⟩ := by
  cases hiso : fromisoformat? (pyStrip v) with
  | some dt =>
    obtain ⟨y1, y2, y3, y4, m1, m2, d1, d2, heq, hdig, hdt⟩ := fromisoformat_some_inv hiso
    have hs2 : splitChar '-' (pyStrip v).data = [[y1, y2, y3, y4], [m1, m2], [d1, d2]] := by
      rw [heq]
      exact splitChar_iso hdig
    rw [hsplit] at hs2
    have e1 : ly = [y1, y2, y3, y4] := by injection hs2
    have hs3 : [lm, ld] = [[m1, m2], [d1, d2]] := by
      injection hs2 with _ h2
    have e2 : lm = [m1, m2] := by injection hs3
    have e3 : ld = [d1, d2] := by
      have : [ld] = [[d1, d2]] := by injection hs3 with _ h3
      injection this
    simp only [parse_date, hiso]
    rw [hdt, e1, e2, e3]
  | none =>
    simp only [parse_date, hiso, hsplit, List.map]
    rw [pyInt?_digits hly hdy, pyInt?_digits hlm hdm, pyInt?_digits hld hdd]
    simp only [mkDate?_natCast hval]

lemma parse_date_error_inv {v : String} {e : CheckError}
    (h : parse_date (.str v) = .error e) : e = .invalidDate v := by
  simp only [parse_date] at h
  split at h
  · exact absurd h (by simp)
  · split at h
    · split at h
      · split at h
        · exact absurd h (by simp)
        · exact (Except.error.inj h).symm
      · exact (Except.error.inj h).symm
    · exact (Except.error.inj h).symm

/-! ## Line classification lemmas -/

lemma classifyLine_blank {raw : String} (h : pyStrip raw = "") :
    classifyLine raw = .ok none := by
  simp [classifyLine, h]

lemma classifyLine_no_space {raw : String} (h1 : pyStrip raw ≠ "")
    (h2 : splitOnce ' ' (pyStrip raw).data = none) :
    classifyLine raw = .error (.malformedLine (pyStrip raw)) := by
  simp [classifyLine, h1, h2]

lemma classifyLine_split {raw : String} {p rest : List Char} (h1 : pyStrip raw ≠ "")
    (h2 : splitOnce ' ' (pyStrip raw).data = some (p, rest)) :
    classifyLine raw = (parseLabel (pyStrip ⟨p⟩) (pyStrip ⟨rest⟩)).map some := by
  simp [classifyLine, h1, h2]

lemma parseLabel_bad {pkg label : String} (h1 : label ≠ "(none)")
    (h2 : labelBad label = true) :
    parseLabel pkg label = .error (.invalidModularityLabel pkg label) := by
  unfold parseLabel
  rw [if_neg h1]
  unfold labelBad at h2
  cases hm : (splitChar ':' label.data).map String.mk with
  | nil => rfl
  | cons a t =>
    cases t with
    | nil => rfl
    | cons b t2 =>
      rw [hm] at h2
      simp only [decide_eq_true_eq] at h2
      exact if_pos h2

lemma parseLabel_ok_of_split {package label a b : String} {t : List String}
    (hnone : label ≠ "(none)")
    (hm : (splitChar ':' label.data).map String.mk = a :: b :: t)
    (ha : a ≠ "") (hb : b ≠ "") :
    parseLabel package label = .ok (.modpkg (a ++ ":" ++ b) package) := by
  unfold parseLabel
  rw [if_neg hnone, hm]
  have hcond : ¬(a = "" ∨ b = "") := fun hor => hor.elim ha hb
  exact if_neg hcond

lemma parseLabel_error_inv {pkg label : String} {e : CheckError}
    (h : parseLabel pkg label = .error e) :
    label ≠ "(none)" ∧ labelBad label = true ∧
      e = .invalidModularityLabel pkg label := by
  by_cases h1 : label = "(none)"
  · rw [parseLabel, if_pos h1] at h
    exact absurd h (by simp)
  · refine ⟨h1, ?_⟩
    rw [parseLabel, if_neg h1] at h
    unfold labelBad
    cases hm : (splitChar ':' label.data).map String.mk with
    | nil =>
      rw [hm] at h
      exact ⟨rfl, (Except.error.inj h).symm⟩
    | cons a t =>
      cases t with
      | nil =>
        rw [hm] at h
        exact ⟨rfl, (Except.error.inj h).symm⟩
      | cons b t2 =>
        rw [hm] at h
        have h3 : (if a = "" ∨ b = "" then
            Except.error (CheckError.invalidModularityLabel pkg label)
          else Except.ok (LineResult.modpkg (a ++ ":" ++ b) pkg)) =
            Except.error e := h
        by_cases hc : a = "" ∨ b = ""
        · rw [if_pos hc] at h3
          exact ⟨decide_eq_true hc, (Except.error.inj h3).symm⟩
        · rw [if_neg hc] at h3
          exact absurd h3 (by simp)

lemma parse_error_iff (output : String) :
    (∃ e, parse_rpm_modularity_output output = .error e) ↔
      ∃ l ∈ splitLines output, ∃ e, classifyLine l = .error e := by
  unfold parse_rpm_modularity_output
  cases hr : runLines ⟨[], []⟩ (splitLines output) with
  | error e =>
    simp only [hr]
    constructor
    · intro _
      exact (runLines_error_iff (splitLines output) ⟨[], []⟩).mp ⟨e, hr⟩
    · intro _
      exact ⟨e, rfl⟩
  | ok st =>
    simp only [hr]
    constructor
    · intro ⟨e2, he2⟩
      exact absurd he2 (by simp)
    · intro hex
      obtain ⟨e2, he2⟩ := (runLines_error_iff (splitLines output) ⟨[], []⟩).mpr hex
      rw [hr] at he2
      exact absurd he2 (by simp)

/-! ## Evaluator lemmas -/

lemma evaluate_eq_ok {gd : List (String × MajorData)} {tm : String} {sd : DateInput}
    {inv : List (String × List String)} {pkgs : List String} {cutoff : Date}
    {md : MajorData} (hc : parse_date sd = .ok cutoff)
    (hm : alistGet? gd tm = some md) :
    evaluate_appstream_check gd tm sd inv pkgs = .ok (evalCore tm md cutoff inv pkgs) := by
  unfold evaluate_appstream_check
  rw [hc, hm]

lemma evaluate_unknown {gd : List (String × MajorData)} {tm : String} {sd : DateInput}
    {inv : List (String × List String)} {pkgs : List String} {cutoff : Date}
    (hc : parse_date sd = .ok cutoff) (hm : alistGet? gd tm = none) :
    evaluate_appstream_check gd tm sd inv pkgs = .error (.unknownTarget tm) := by
  unfold evaluate_appstream_check
  rw [hc, hm]

lemma evaluate_bad_date {gd : List (String × MajorData)} {tm : String} {sd : DateInput}
    {inv : List (String × List String)} {pkgs : List String} {e : CheckError}
    (hc : parse_date sd = .error e) :
    evaluate_appstream_check gd tm sd inv pkgs = .error e := by
  unfold evaluate_appstream_check
  rw [hc]

lemma evaluate_ok_inv {gd : List (String × MajorData)} {tm : String} {sd : DateInput}
    {inv : List (String × List String)} {pkgs : List String} {res : EvalResult}
    {rem : List String}
    (h : evaluate_appstream_check gd tm sd inv pkgs = .ok (res, rem)) :
    ∃ cutoff md, parse_date sd = .ok cutoff ∧ alistGet? gd tm = some md ∧
      res = (evalCore tm md cutoff inv pkgs).1 ∧
      rem = (evalCore tm md cutoff inv pkgs).2 := by
  unfold evaluate_appstream_check at h
  cases hc : parse_date sd with
  | error e => rw [hc] at h; exact absurd h (by simp)
  | ok cutoff =>
    rw [hc] at h
    cases hm : alistGet? gd tm with
    | none => rw [hm] at h; exact absurd h (by simp)
    | some md =>
      rw [hm] at h
      have h2 := Except.ok.inj h
      exact ⟨cutoff, md, rfl, rfl, (congrArg Prod.fst h2).symm,
        (congrArg Prod.snd h2).symm⟩

lemma mem_matchedPackages {md : MajorData} {cutoff : Date} {pkgs : List String}
    {p : String} : p ∈ matchedPackages md cutoff pkgs ↔
      p ∈ pkgs ∧ p ∈ referencePackageNames md cutoff := by
  unfold matchedPackages
  rw [mem_sortedSet, List.mem_filter]
  simp

lemma mem_matchedModules {md : MajorData} {cutoff : Date}
    {inv : List (String × List String)} {k : String} :
    k ∈ matchedModules md cutoff inv ↔
      k ∈ inv.map Prod.fst ∧ k ∈ referenceModuleNames md cutoff := by
  unfold matchedModules
  rw [mem_sortedSet, List.mem_filter]
  simp

lemma mem_matchedModulePackages {inv : List (String × List String)}
    {matched : List String} {q : String} :
    q ∈ matchedModulePackages inv matched ↔
      ∃ m ∈ matched, q ∈ alistGetD inv m := by
  unfold matchedModulePackages
  rw [mem_sortedSet, List.mem_flatMap]

lemma evalCore_congr {tm : String} {md1 md2 : MajorData} {cutoff : Date}
    {inv : List (String × List String)} {pkgs : List String}
    (hp : referencePackageNames md1 cutoff = referencePackageNames md2 cutoff)
    (hm : referenceModuleNames md1 cutoff = referenceModuleNames md2 cutoff) :
    evalCore tm md1 cutoff inv pkgs = evalCore tm md2 cutoff inv pkgs := by
  unfold evalCore matchedPackages matchedModules
  rw [hp, hm]

/-! ## Detection and reference-set lemmas -/

lemma detect_no_line {lines : List String} (h : findVersionId lines = none) :
    detect_target_major (some lines) = .error (.detectionError msgNoVersionId) := by
  simp [detect_target_major, h]

lemma findVersionId_first {l : String} (pre : List String) (post : List String)
    (hpre : ∀ x ∈ pre, startsWithStr "VERSION_ID=" (pyStrip x) = false)
    (hl : startsWithStr "VERSION_ID=" (pyStrip l) = true) :
    findVersionId (pre ++ l :: post) =
      some (stripQuotes ⟨(pyStrip l).data.drop 11⟩) := by
  induction pre with
  | nil => simp [findVersionId, hl]
  | cons x xs ih =>
    have hx := hpre x (List.mem_cons_self x xs)
    simp only [List.cons_append, findVersionId, hx, Bool.false_eq_true, if_false]
    exact ih (fun y hy => hpre y (List.mem_cons_of_mem x hy))

lemma detect_found_digit {lines : List String} {v : String}
    (hf : findVersionId lines = some v) (hne : v ≠ "")
    (hd : pyIsDigit (beforeFirstDot v) = true) :
    detect_target_major (some lines) =
      .ok ("el" ++ toString (digitsToNat (beforeFirstDot v).data)) := by
  simp [detect_target_major, hf, hne, hd]

lemma detect_found_nondigit {lines : List String} {v : String}
    (hf : findVersionId lines = some v) (hne : v ≠ "")
    (hd : pyIsDigit (beforeFirstDot v) = false) :
    detect_target_major (some lines) = .error (.detectionError (msgBadMajor v)) := by
  simp [detect_target_major, hf, hne, hd]

lemma _is_retired_bad {e : Option DateInput} (h : badEndDate e) (cutoff : Date) :
    _is_retired e cutoff = false := by
  rcases h with rfl | rfl | ⟨s, rfl, err, herr⟩
  · rfl
  · rfl
  · by_cases hs : s = ""
    · simp [_is_retired, hs]
    · simp [_is_retired, hs, herr]

lemma refPkg_erase {ps1 ps2 : List PackageEntry} {it : PackageEntry}
    {ms : List ModuleEntry} {cutoff : Date}
    (hf : (_is_retired it.end_date cutoff && truthyStr it.name) = false) :
    referencePackageNames ⟨ps1 ++ it :: ps2, ms⟩ cutoff =
      referencePackageNames ⟨ps1 ++ ps2, ms⟩ cutoff := by
  unfold referencePackageNames
  simp [List.filter_append, List.filter_cons, hf]

lemma refMod_erase {ms1 ms2 : List ModuleEntry} {it : ModuleEntry}
    {ps : List PackageEntry} {cutoff : Date}
    (hf : (_is_retired it.end_date cutoff && truthyStr it.name &&
      truthyStr it.stream) = false) :
    referenceModuleNames ⟨ps, ms1 ++ it :: ms2⟩ cutoff =
      referenceModuleNames ⟨ps, ms1 ++ ms2⟩ cutoff := by
  unfold referenceModuleNames
  simp [List.filter_append, List.filter_cons, hf]

/-! ## Claim theorems -/

/-- C1: on the scenario A reference table (el9 with retired package
`retired-nonmod` and retired module `nodejs:18`, both ending 2020-01-01),
installed packages `["retired-nonmod"]` and installed modules
`nodejs:18 -> ["nodejs-libs"]`, cutoff 2026-02-17 yields exactly
matched_packages `["retired-nonmod"]`, matched_dnf_modules `["nodejs:18"]`,
matched_dnf_modules_packages `["nodejs-libs"]`, any_match true and removal
list `["nodejs-libs", "retired-nonmod"]`; cutoff 2019-01-01 (not strictly
after the end dates) yields empty matches and any_match false. -/
theorem claim_C1_scenarios :
    evaluate_appstream_check gdA "el9" (.str "2026-02-17") invA pkgsA =
      .ok ({ target_major := "el9",
             matched_packages := ["retired-nonmod"],
             matched_dnf_modules := ["nodejs:18"],
             matched_dnf_modules_packages := ["nodejs-libs"],
             any_match := true },
           ["nodejs-libs", "retired-nonmod"]) ∧
    evaluate_appstream_check gdA "el9" (.str "2019-01-01") invA pkgsA =
      .ok ({ target_major := "el9",
             matched_packages := [],
             matched_dnf_modules := [],
             matched_dnf_modules_packages := [],
             any_match := false },
           []) :=
  ⟨rfl, rfl⟩

/-- C2: a reference entry whose end_date is null, empty, or unparseable is
never counted retired; removing such a `package` or `dnf_module` entry
from the target record leaves the whole evaluation result unchanged (the
entry is silently excluded, so it never reaches a matched set); and once
the cutoff parses and the target key is present, evaluation always
completes normally, whatever the entries contain. -/
theorem claim_C2_bad_end_date :
    (∀ (e : Option DateInput) (cutoff : Date), badEndDate e →
      _is_retired e cutoff = false) ∧
    (∀ (ps1 ps2 : List PackageEntry) (it : PackageEntry) (ms : List ModuleEntry)
      (cutoff : Date) (tm : String) (inv : List (String × List String))
      (pkgs : List String), badEndDate it.end_date →
      evalCore tm ⟨ps1 ++ it :: ps2, ms⟩ cutoff inv pkgs =
        evalCore tm ⟨ps1 ++ ps2, ms⟩ cutoff inv pkgs) ∧
    (∀ (ms1 ms2 : List ModuleEntry) (it : ModuleEntry) (ps : List PackageEntry)
      (cutoff : Date) (tm : String) (inv : List (String × List String))
      (pkgs : List String), badEndDate it.end_date →
      evalCore tm ⟨ps, ms1 ++ it :: ms2⟩ cutoff inv pkgs =
        evalCore tm ⟨ps, ms1 ++ ms2⟩ cutoff inv pkgs) ∧
    (∀ (gd : List (String × MajorData)) (tm : String) (sd : DateInput)
      (inv : List (String × List String)) (pkgs : List String) (cutoff : Date)
      (md : MajorData), parse_date sd = .ok cutoff → alistGet? gd tm = some md →
      ∃ out, evaluate_appstream_check gd tm sd inv pkgs = .ok out) := by
  refine ⟨fun e cutoff h => _is_retired_bad h cutoff, ?_, ?_, ?_⟩
  · intro ps1 ps2 it ms cutoff tm inv pkgs hbad
    have hret := _is_retired_bad hbad cutoff
    exact evalCore_congr (refPkg_erase (by simp [hret])) rfl
  · intro ms1 ms2 it ps cutoff tm inv pkgs hbad
    have hret := _is_retired_bad hbad cutoff
    exact evalCore_congr rfl (refMod_erase (by simp [hret]))
  · intro gd tm sd inv pkgs cutoff md hc hm
    exact ⟨evalCore tm md cutoff inv pkgs, evaluate_eq_ok hc hm⟩

/-- C2 witness: an unparseable end date is not retired at a concrete
cutoff, a concrete bad entry is invariantly excluded, and the scenario A
evaluation completes. -/
theorem claim_C2_witness :
    _is_retired (some (.str "soon")) ⟨2026, 2, 17⟩ = false ∧
    evalCore "el9" ⟨[] ++ ⟨some "p", some (.str "soon")⟩ :: [], []⟩ ⟨2026, 2, 17⟩
        [] ["p"] =
      evalCore "el9" ⟨[] ++ [], []⟩ ⟨2026, 2, 17⟩ [] ["p"] ∧
    (∃ out, evaluate_appstream_check gdA "el9" (.str "2026-02-17") invA pkgsA =
      .ok out) := by
  have hbad : badEndDate (some (DateInput.str "soon")) :=
    Or.inr (Or.inr ⟨"soon", rfl, .invalidDate "soon", rfl⟩)
  refine ⟨claim_C2_bad_end_date.1 _ ⟨2026, 2, 17⟩ hbad, ?_, ?_⟩
  · exact claim_C2_bad_end_date.2.1 [] [] ⟨some "p", some (.str "soon")⟩ []
      ⟨2026, 2, 17⟩ "el9" [] ["p"] hbad
  · exact claim_C2_bad_end_date.2.2.2 gdA "el9" (.str "2026-02-17") invA pkgsA
      ⟨2026, 2, 17⟩ mdA rfl rfl

/-- C3 counterexample: the claim says a missing target key yields
UnknownTarget for every cutoff, including a malformed one; but the code
normalizes the cutoff first, so with table keys `{el9}`, requested key
`el8` and malformed cutoff the evaluator fails with InvalidDate, which is
not UnknownTarget("el8"). -/
theorem claim_C3_counterexample :
    evaluate_appstream_check gdA "el8" (.str "not-a-date") [] [] =
      .error (.invalidDate "not-a-date") ∧
    CheckError.invalidDate "not-a-date" ≠ CheckError.unknownTarget "el8" :=
  ⟨rfl, by decide⟩

/-- C3 amended: cutoff normalization precedes the table lookup.  With a
well-formed cutoff, a missing target key fails with UnknownTarget carrying
the requested key itself; with a malformed cutoff string the evaluator
fails with the InvalidDate error carrying the cutoff value, even when the
key is missing. -/
theorem claim_C3_amended :
    (∀ (gd : List (String × MajorData)) (tm : String) (sd : DateInput)
      (inv : List (String × List String)) (pkgs : List String) (cutoff : Date),
      parse_date sd = .ok cutoff → alistGet? gd tm = none →
      evaluate_appstream_check gd tm sd inv pkgs = .error (.unknownTarget tm)) ∧
    (∀ (gd : List (String × MajorData)) (tm : String) (s : String)
      (inv : List (String × List String)) (pkgs : List String) (e : CheckError),
      parse_date (.str s) = .error e →
      evaluate_appstream_check gd tm (.str s) inv pkgs = .error e ∧
        e = .invalidDate s) :=
  ⟨fun _ _ _ _ _ _ hc hm => evaluate_unknown hc hm,
   fun _ _ _ _ _ _ hc => ⟨evaluate_bad_date hc, parse_date_error_inv hc⟩⟩

/-- C3 witness: scenario E (key el8 against a table with only el9 and a
well-formed cutoff) fails with UnknownTarget("el8"); a malformed cutoff
with the same missing key fails with InvalidDate. -/
theorem claim_C3_witness :
    evaluate_appstream_check gdA "el8" (.str "2026-02-17") [] [] =
      .error (.unknownTarget "el8") ∧
    evaluate_appstream_check gdA "el8" (.str "not-a-date") [] [] =
      .error (.invalidDate "not-a-date") := by
  refine ⟨claim_C3_amended.1 gdA "el8" (.str "2026-02-17") [] [] ⟨2026, 2, 17⟩
    rfl rfl, ?_⟩
  exact (claim_C3_amended.2 gdA "el8" "not-a-date" [] []
    (.invalidDate "not-a-date") rfl).1

/-- C4: for every successful evaluation the matched packages lie in the
intersection of the installed packages and the retired-package reference
set, the matched modules lie in the intersection of the installed module
keys and the retired-module reference set, the removal list is exactly the
duplicate-free union of matched_packages and matched_dnf_modules_packages,
and all four returned sequences are lexicographically sorted. -/
theorem claim_C4_algebraic (gd : List (String × MajorData)) (tm : String)
    (sd : DateInput) (inv : List (String × List String)) (pkgs : List String)
    (res : EvalResult) (rem : List String) (cutoff : Date) (md : MajorData)
    (heval : evaluate_appstream_check gd tm sd inv pkgs = .ok (res, rem))
    (hc : parse_date sd = .ok cutoff) (hm : alistGet? gd tm = some md) :
    (∀ p ∈ res.matched_packages, p ∈ pkgs ∧ p ∈ referencePackageNames md cutoff) ∧
    (∀ k ∈ res.matched_dnf_modules,
      k ∈ inv.map Prod.fst ∧ k ∈ referenceModuleNames md cutoff) ∧
    (∀ x, x ∈ rem ↔
      x ∈ res.matched_packages ∨ x ∈ res.matched_dnf_modules_packages) ∧
    rem.Nodup ∧
    List.Sorted sLt res.matched_packages ∧
    List.Sorted sLt res.matched_dnf_modules ∧
    List.Sorted sLt res.matched_dnf_modules_packages ∧
    List.Sorted sLt rem := by
  rw [evaluate_eq_ok hc hm] at heval
  have h2 := Except.ok.inj heval
  have hres : res = (evalCore tm md cutoff inv pkgs).1 := (congrArg Prod.fst h2).symm
  have hrem : rem = (evalCore tm md cutoff inv pkgs).2 := (congrArg Prod.snd h2).symm
  subst hres
  subst hrem
  refine ⟨?_, ?_, ?_, ?_, ?_, ?_, ?_, ?_⟩
  · intro p hp
    exact mem_matchedPackages.mp hp
  · intro k hk
    exact mem_matchedModules.mp hk
  · intro x
    show x ∈ sortedSet (matchedPackages md cutoff pkgs ++
      matchedModulePackages inv (matchedModules md cutoff inv)) ↔ _
    rw [mem_sortedSet, List.mem_append]
    exact Iff.rfl
  · exact nodup_sortedSet _
  · exact sorted_sortedSet _
  · exact sorted_sortedSet _
  · exact sorted_sortedSet _
  · exact sorted_sortedSet _

/-- C4 witness: the scenario A evaluation instantiates the union law and
sortedness of the removal list. -/
theorem claim_C4_witness :
    (∀ x, x ∈ ["nodejs-libs", "retired-nonmod"] ↔
      x ∈ ["retired-nonmod"] ∨ x ∈ ["nodejs-libs"]) ∧
    List.Sorted sLt ["nodejs-libs", "retired-nonmod"] ∧
    List.Nodup ["nodejs-libs", "retired-nonmod"] := by
  have h := claim_C4_algebraic gdA "el9" (.str "2026-02-17") invA pkgsA
    ⟨"el9", ["retired-nonmod"], ["nodejs:18"], ["nodejs-libs"], true⟩
    ["nodejs-libs", "retired-nonmod"] ⟨2026, 2, 17⟩ mdA rfl rfl rfl
  exact ⟨h.2.2.1, h.2.2.2.2.2.2.2, h.2.2.2.1⟩

/-- C5: the parser returns the non-modular package list deduplicated and
lexicographically sorted; a label that splits into two non-empty leading
components yields the key formed from exactly those first two components
joined by `:`, whatever further components follow; and each key of the
module mapping holds exactly the packages of the lines with that key, in
line order with duplicates kept. -/
theorem claim_C5_parser_shape :
    (∀ output mods pkgs, parse_rpm_modularity_output output = .ok (mods, pkgs) →
      List.Sorted sLt pkgs ∧ pkgs.Nodup) ∧
    (∀ (package a b : String) (rest : List (List Char)),
      ':' ∉ a.data → ':' ∉ b.data → a ≠ "" → b ≠ "" →
      parseLabel package ⟨joinParts ':' (a.data :: b.data :: rest)⟩ =
        .ok (.modpkg (a ++ ":" ++ b) package)) ∧
    (∀ output mods pkgs key, parse_rpm_modularity_output output = .ok (mods, pkgs) →
      alistGetD mods key = keyPkgs (splitLines output) key) := by
  refine ⟨?_, ?_, ?_⟩
  · intro output mods pkgs h
    obtain ⟨st, hrun, hmods, hpkgs⟩ := parse_ok_inv output mods pkgs h
    rw [hpkgs]
    exact ⟨sorted_sortedSet _, nodup_sortedSet _⟩
  · intro package a b rest ha hb hane hbne
    have hsplit : ∃ t, splitChar ':' (joinParts ':' (a.data :: b.data :: rest)) =
        a.data :: b.data :: t := by
      cases rest with
      | nil =>
        rw [show joinParts ':' [a.data, b.data] = a.data ++ ':' :: b.data from rfl]
        rw [splitChar_append_cons ':' a.data b.data ha, splitChar_not_mem b.data hb]
        exact ⟨[], rfl⟩
      | cons r rs =>
        rw [show joinParts ':' (a.data :: b.data :: r :: rs) =
          a.data ++ ':' :: joinParts ':' (b.data :: r :: rs) from rfl]
        rw [splitChar_append_cons ':' a.data _ ha]
        rw [show joinParts ':' (b.data :: r :: rs) =
          b.data ++ ':' :: joinParts ':' (r :: rs) from rfl]
        rw [splitChar_append_cons ':' b.data _ hb]
        exact ⟨splitChar ':' (joinParts ':' (r :: rs)), rfl⟩
    obtain ⟨t, hsp⟩ := hsplit
    have hcolon : ':' ∈ joinParts ':' (a.data :: b.data :: rest) := by
      cases rest with
      | nil =>
        show ':' ∈ a.data ++ ':' :: b.data
        exact List.mem_append_right _ (List.mem_cons_self _ _)
      | cons r rs =>
        show ':' ∈ a.data ++ ':' :: joinParts ':' (b.data :: r :: rs)
        exact List.mem_append_right _ (List.mem_cons_self _ _)
    have hnone : (⟨joinParts ':' (a.data :: b.data :: rest)⟩ : String) ≠ "(none)" := by
      intro he
      have hd : joinParts ':' (a.data :: b.data :: rest) = "(none)".data :=
        congrArg String.data he
      rw [hd] at hcolon
      exact absurd hcolon (by decide)
    have hm2 : (splitChar ':'
        (⟨joinParts ':' (a.data :: b.data :: rest)⟩ : String).data).map String.mk =
        a :: b :: t.map String.mk := by
      show (splitChar ':' (joinParts ':' (a.data :: b.data :: rest))).map
        String.mk = _
      rw [hsp]
      simp only [List.map_cons, mk_data]
    exact parseLabel_ok_of_split hnone hm2 hane hbne
  · intro output mods pkgs key h
    obtain ⟨st, hrun, hmods, hpkgs⟩ := parse_ok_inv output mods pkgs h
    rw [hmods, runLines_modules (splitLines output) ⟨[], []⟩ st hrun key]
    rfl

/-- C5 witness: a three-line output with a duplicated modular package and
a context-bearing label instantiates all three parts. -/
theorem claim_C5_witness :
    List.Sorted sLt ["p1"] ∧
    parseLabel "p" ⟨joinParts ':' ("a".data :: "b".data :: ["c".data])⟩ =
      .ok (.modpkg ("a" ++ ":" ++ "b") "p") ∧
    alistGetD [("mod:st", ["pA", "pA"])] "mod:st" =
      keyPkgs (splitLines "p1 (none)\npA mod:st:x\npA mod:st") "mod:st" := by
  refine ⟨(claim_C5_parser_shape.1 "p1 (none)\npA mod:st:x\npA mod:st"
      [("mod:st", ["pA", "pA"])] ["p1"] rfl).1, ?_, ?_⟩
  · exact claim_C5_parser_shape.2.1 "p" "a" "b" ["c".data] (by decide) (by decide)
      (by decide) (by decide)
  · exact claim_C5_parser_shape.2.2 "p1 (none)\npA mod:st:x\npA mod:st"
      [("mod:st", ["pA", "pA"])] ["p1"] "mod:st" rfl

/-- C6: blank (after trimming) lines never fail; a non-blank line without
a space fails with MalformedLine carrying the trimmed line; a non-`(none)`
label with fewer than two colon components or an empty first or second
component fails with InvalidModularityLabel carrying the package and the
label, and those are the only label failures; and the parser fails if and
only if some line fails classification. -/
theorem claim_C6_failure_iff :
    (∀ raw, pyStrip raw = "" → classifyLine raw = .ok none) ∧
    (∀ raw, pyStrip raw ≠ "" → splitOnce ' ' (pyStrip raw).data = none →
      classifyLine raw = .error (.malformedLine (pyStrip raw))) ∧
    (∀ package label, label ≠ "(none)" → labelBad label = true →
      parseLabel package label = .error (.invalidModularityLabel package label)) ∧
    (∀ package label e, parseLabel package label = .error e →
      label ≠ "(none)" ∧ labelBad label = true ∧
        e = .invalidModularityLabel package label) ∧
    (∀ output, (∃ e, parse_rpm_modularity_output output = .error e) ↔
      ∃ l ∈ splitLines output, ∃ e, classifyLine l = .error e) :=
  ⟨fun _ h => classifyLine_blank h,
   fun _ h1 h2 => classifyLine_no_space h1 h2,
   fun _ _ h1 h2 => parseLabel_bad h1 h2,
   fun _ _ _ h => parseLabel_error_inv h,
   parse_error_iff⟩

/-- C6 witness: scenario D line without a space, scenario C line with a
one-component label, and the whole-parser failure on the latter. -/
theorem claim_C6_witness :
    classifyLine "onlyonecolumn" = .error (.malformedLine "onlyonecolumn") ∧
    parseLabel "pkg-a" "badlabel" =
      .error (.invalidModularityLabel "pkg-a" "badlabel") ∧
    (∃ e, parse_rpm_modularity_output "pkg-a badlabel" = .error e) := by
  refine ⟨claim_C6_failure_iff.2.1 "onlyonecolumn" (by decide) (by decide),
    claim_C6_failure_iff.2.2.1 "pkg-a" "badlabel" (by decide) (by decide), ?_⟩
  exact (claim_C6_failure_iff.2.2.2.2 "pkg-a badlabel").mpr
    ⟨"pkg-a badlabel", by decide,
     .invalidModularityLabel "pkg-a" "badlabel", rfl⟩

/-- C7: an already-structured date is returned unchanged; every string
whose stripped text splits on `-` into three non-empty all-digit
components naming a valid calendar date parses to exactly that date, so
the zero-padded and non-zero-padded encodings of one date agree; and every
failure is the InvalidDate error carrying the original input value. -/
theorem claim_C7_date_normalizer :
    (∀ d : Date, parse_date (.date d) = .ok d) ∧
    (∀ (v : String) (ly lm ld : List Char),
      splitChar '-' (pyStrip v).data = [ly, lm, ld] →
      ly ≠ [] → lm ≠ [] → ld ≠ [] →
      ly.all Char.isDigit = true → lm.all Char.isDigit = true →
      ld.all Char.isDigit = true →
      validDate (digitsToNat ly) (digitsToNat lm) (digitsToNat ld) = true →
      parse_date (.str v) = .ok ⟨digitsToNat ly, digitsToNat lm, digitsToNat ld⟩) ∧
    (∀ v e, parse_date (.str v) = .error e → e = .invalidDate v) :=
  ⟨fun _ => rfl,
   fun _ _ _ _ hs h1 h2 h3 h4 h5 h6 h7 =>
     parse_date_components hs h1 h2 h3 h4 h5 h6 h7,
   fun _ _ h => parse_date_error_inv h⟩

/-- C7 witness: the padded and unpadded encodings of 2026-02-01 both
normalize to the same date, and a failing parse carries its input. -/
theorem claim_C7_witness :
    parse_date (.str "2026-02-01") = .ok ⟨2026, 2, 1⟩ ∧
    parse_date (.str "2026-2-1") = .ok ⟨2026, 2, 1⟩ ∧
    CheckError.invalidDate "not-a-date" = CheckError.invalidDate "not-a-date" := by
  refine ⟨?_, ?_, ?_⟩
  · exact claim_C7_date_normalizer.2.1 "2026-02-01" ['2', '0', '2', '6'] ['0', '2']
      ['0', '1'] (by decide) (by decide) (by decide) (by decide) (by decide)
      (by decide) (by decide) (by decide)
  · exact claim_C7_date_normalizer.2.1 "2026-2-1" ['2', '0', '2', '6'] ['2'] ['1']
      (by decide) (by decide) (by decide) (by decide) (by decide) (by decide)
      (by decide) (by decide)
  · exact claim_C7_date_normalizer.2.2 "not-a-date" (.invalidDate "not-a-date") rfl

/-- C8: the detector honors the first `VERSION_ID=` line, unquoting and
trimming its value; when the major substring (before the first `.`) is
purely numeric it returns "el" followed by the integer value of the major
(leading zeros dropped by the numeric conversion); a non-numeric major
fails with a DetectionError; and a missing or unreadable file and a file
without a `VERSION_ID=` line fail with the same DetectionError. -/
theorem claim_C8_detect :
    detect_target_major none = .error (.detectionError msgNoVersionId) ∧
    (∀ lines, findVersionId lines = none →
      detect_target_major (some lines) = .error (.detectionError msgNoVersionId)) ∧
    (∀ (pre : List String) (l : String) (post : List String),
      (∀ x ∈ pre, startsWithStr "VERSION_ID=" (pyStrip x) = false) →
      startsWithStr "VERSION_ID=" (pyStrip l) = true →
      findVersionId (pre ++ l :: post) =
        some (stripQuotes ⟨(pyStrip l).data.drop 11⟩)) ∧
    (∀ lines v, findVersionId lines = some v → v ≠ "" →
      pyIsDigit (beforeFirstDot v) = true →
      detect_target_major (some lines) =
        .ok ("el" ++ toString (digitsToNat (beforeFirstDot v).data))) ∧
    (∀ lines v, findVersionId lines = some v → v ≠ "" →
      pyIsDigit (beforeFirstDot v) = false →
      detect_target_major (some lines) =
        .error (.detectionError (msgBadMajor v))) :=
  ⟨rfl,
   fun _ h => detect_no_line h,
   fun pre _ post hpre hl => findVersionId_first pre post hpre hl,
   fun _ _ hf hne hd => detect_found_digit hf hne hd,
   fun _ _ hf hne hd => detect_found_nondigit hf hne hd⟩

/-- C8 witness: scenario F and the leading-zero case, the first-line scan
past a non-matching line, and the shared missing-line error. -/
theorem claim_C8_witness :
    detect_target_major (some ["VERSION_ID=\"9.4\""]) = .ok "el9" ∧
    detect_target_major (some ["VERSION_ID=\"08\""]) = .ok "el8" ∧
    detect_target_major (some ["VERSION_ID=abc"]) =
      .error (.detectionError (msgBadMajor "abc")) ∧
    detect_target_major (some ["ID=rhel"]) =
      .error (.detectionError msgNoVersionId) ∧
    findVersionId (["NAME=x"] ++ "VERSION_ID=\"9.4\"" :: []) = some "9.4" := by
  refine ⟨?_, ?_, ?_, ?_, ?_⟩
  · exact claim_C8_detect.2.2.2.1 ["VERSION_ID=\"9.4\""] "9.4" rfl (by decide)
      (by decide)
  · exact claim_C8_detect.2.2.2.1 ["VERSION_ID=\"08\""] "08" rfl (by decide)
      (by decide)
  · exact claim_C8_detect.2.2.2.2 ["VERSION_ID=abc"] "abc" rfl (by decide)
      (by decide)
  · exact claim_C8_detect.2.1 ["ID=rhel"] rfl
  · exact claim_C8_detect.2.2.1 ["NAME=x"] "VERSION_ID=\"9.4\"" [] (by decide)
      (by decide)

/-- C9: every key of the module mapping the parser returns holds a
non-empty package list, and consequently every matched module of an
evaluation fed with a parser-produced inventory contributes at least one
package to matched_dnf_modules_packages. -/
theorem claim_C9_nonempty :
    (∀ output mods pkgs k v, parse_rpm_modularity_output output = .ok (mods, pkgs) →
      (k, v) ∈ mods → v ≠ []) ∧
    (∀ output mods pkgs (gd : List (String × MajorData)) (tm : String)
      (sd : DateInput) (pkgsI : List String) (res : EvalResult) (rem : List String),
      parse_rpm_modularity_output output = .ok (mods, pkgs) →
      evaluate_appstream_check gd tm sd mods pkgsI = .ok (res, rem) →
      ∀ m ∈ res.matched_dnf_modules,
        ∃ p, p ∈ alistGetD mods m ∧ p ∈ res.matched_dnf_modules_packages) := by
  have hvals : ∀ output mods pkgs, parse_rpm_modularity_output output = .ok (mods, pkgs) →
      ∀ kv ∈ mods, kv.2 ≠ [] := by
    intro output mods pkgs h kv hkv
    obtain ⟨st, hrun, hmods, _⟩ := parse_ok_inv output mods pkgs h
    refine runLines_values_ne_nil (splitLines output) ⟨[], []⟩ st ?_ hrun kv ?_
    · intro kv2 hkv2
      exact absurd hkv2 (List.not_mem_nil kv2)
    · rw [← hmods]
      exact hkv
  constructor
  · intro output mods pkgs k v h hkv
    exact hvals output mods pkgs h (k, v) hkv
  · intro output mods pkgs gd tm sd pkgsI res rem hparse heval m hm
    obtain ⟨cutoff, md, hc, hmd, hres, hrem⟩ := evaluate_ok_inv heval
    rw [hres] at hm
    have hm2 : m ∈ matchedModules md cutoff mods := hm
    have hmem := mem_matchedModules.mp hm2
    have hne : alistGetD mods m ≠ [] :=
      alistGetD_ne_nil_of_mem_keys mods m (hvals output mods pkgs hparse) hmem.1
    obtain ⟨p, hp⟩ := List.exists_mem_of_ne_nil _ hne
    refine ⟨p, hp, ?_⟩
    rw [hres]
    exact mem_matchedModulePackages.mpr ⟨m, hm2, hp⟩

/-- C9 witness: a parsed single-module inventory evaluated against the
scenario A table contributes a package for its matched module. -/
theorem claim_C9_witness :
    ∃ p, p ∈ alistGetD [("nodejs:18", ["nodejs-libs"])] "nodejs:18" ∧
      p ∈ ["nodejs-libs"] := by
  have h := claim_C9_nonempty.2 "nodejs-libs nodejs:18:ctx"
    [("nodejs:18", ["nodejs-libs"])] [] gdA "el9" (.str "2026-02-17") []
    ⟨"el9", [], ["nodejs:18"], ["nodejs-libs"], true⟩ ["nodejs-libs"] rfl rfl
  exact h "nodejs:18" (by decide)

/-- C10: a `package` entry with a missing or empty name never satisfies
the retirement filter (even when its end date is before the cutoff),
removing such an entry leaves the whole evaluation result unchanged, and
the empty string is never a member of the retired-package reference set. -/
theorem claim_C10_bad_name :
    (∀ (it : PackageEntry) (cutoff : Date), badName it.name →
      (_is_retired it.end_date cutoff && truthyStr it.name) = false) ∧
    (∀ (ps1 ps2 : List PackageEntry) (it : PackageEntry) (ms : List ModuleEntry)
      (cutoff : Date) (tm : String) (inv : List (String × List String))
      (pkgs : List String), badName it.name →
      evalCore tm ⟨ps1 ++ it :: ps2, ms⟩ cutoff inv pkgs =
        evalCore tm ⟨ps1 ++ ps2, ms⟩ cutoff inv pkgs) ∧
    (∀ (md : MajorData) (cutoff : Date),
      "" ∉ referencePackageNames md cutoff) := by
  have hfalse : ∀ (it : PackageEntry) (cutoff : Date), badName it.name →
      (_is_retired it.end_date cutoff && truthyStr it.name) = false := by
    intro it cutoff hbad
    rcases hbad with hn | hn <;> simp [truthyStr, hn]
  refine ⟨hfalse, ?_, ?_⟩
  · intro ps1 ps2 it ms cutoff tm inv pkgs hbad
    exact evalCore_congr (refPkg_erase (hfalse it cutoff hbad)) rfl
  · intro md cutoff hmem
    unfold referencePackageNames at hmem
    rw [mem_sortedSet] at hmem
    obtain ⟨it, hfil, hname⟩ := List.mem_map.mp hmem
    have hcond := (List.mem_filter.mp hfil).2
    rw [Bool.and_eq_true] at hcond
    cases hn : it.name with
    | none =>
      rw [hn] at hcond
      exact absurd hcond.2 (by simp [truthyStr])
    | some s =>
      rw [hn] at hcond
      have hs : s ≠ "" := by
        have := hcond.2
        simp only [truthyStr, Bool.not_eq_true] at this
        intro he
        rw [he] at this
        simp at this
      rw [hn] at hname
      exact hs hname

/-- C10 witness: a concrete empty-named entry with an end date before the
cutoff is excluded without changing the evaluation, and the empty string
is not in the scenario A retired-package set. -/
theorem claim_C10_witness :
    evalCore "el9" ⟨[] ++ ⟨some "", some (.str "2000-01-01")⟩ :: [], []⟩
        ⟨2026, 2, 17⟩ [] ["x"] =
      evalCore "el9" ⟨[] ++ [], []⟩ ⟨2026, 2, 17⟩ [] ["x"] ∧
    "" ∉ referencePackageNames mdA ⟨2026, 2, 17⟩ :=
  ⟨claim_C10_bad_name.2.1 [] [] ⟨some "", some (.str "2000-01-01")⟩ []
     ⟨2026, 2, 17⟩ "el9" [] ["x"] (Or.inr rfl),
   claim_C10_bad_name.2.2 mdA ⟨2026, 2, 17⟩⟩

end AppstreamCheck
